import Mathlib

/-!
Verification of the kraken-fees-and-funding dashboard core against its
natural-language specification.

The development shallowly embeds the relevant Python functions:

* `kraken_client.py`: the retry loop of `make_request`, the position
  lifecycle resolver `find_true_position_open_time`, and the accumulation
  function `get_position_accumulated_data`;
* `routes/positions.py`: `get_position_accumulated_data_cached`,
  `calculate_unrealized_pnl` and `format_position_data`;
* `unified_data_service.py`: `UnifiedDataService._fetch_and_process_data`
  and `UnifiedDataService._filter_to_days`;
* `dashboard_utils.py`: `aggregate_logs_by_day`.

Modelling conventions: Python floats are modelled as rationals (`ℚ`),
`round(x, 2)` as round-half-to-even on hundredths, ISO date strings as the
parsed UTC epoch-millisecond timestamp (`Option Int`, `none` standing for a
missing or unparseable string), JSON dictionaries as structures with
optional fields, and Python dicts used as accumulators as total functions
from keys, which is faithful because the code only ever reads them through
`get` with the same default it inserts.
-/

namespace KrakenDash

/-- Python `round` uses round-half-to-even; this is its integer core on `ℚ`. -/
def roundHalfEven (q : ℚ) : ℤ :=
  let f := ⌊q⌋
  let r := q - f
  if r < 1/2 then f
  else if 1/2 < r then f + 1
  else if f % 2 = 0 then f else f + 1

/-- Model of Python `round(x, 2)` on rationals. -/
def round2 (q : ℚ) : ℚ := (roundHalfEven (q * 100) : ℚ) / 100

/-- A rational that is a whole number of hundredths (the shape of every
value that already went through `round(_, 2)`). -/
def Cent (q : ℚ) : Prop := ∃ n : ℤ, q = (n : ℚ) / 100

/-- Python substring membership `needle in hay` on the underlying characters. -/
def containsSub (needle : List Char) : List Char → Bool
  | [] => needle.isEmpty
  | c :: t => needle.isPrefixOf (c :: t) || containsSub needle t

/-- Python `needle in hay` for strings. -/
def strIn (needle hay : String) : Bool := containsSub needle.toList hay.toList

/-- Python `str.upper()`, character-wise (the same function as
`String.toUpper`, stated on the character list so that it reduces in the
kernel). -/
def strUpper (s : String) : String := ⟨s.toList.map Char.toUpper⟩

/-- Python `str.lower()`, character-wise. -/
def strLower (s : String) : String := ⟨s.toList.map Char.toLower⟩

/-- An account-log row as consumed by the aggregation and accumulation code.
`date` is the parsed UTC timestamp in epoch milliseconds; `none` models a
missing or unparseable date string.  Absent JSON fields are `none` / the
Python default the code supplies. -/
structure LogEntry where
  date : Option Int := none
  info : String := ""
  contract : String := ""
  fee : Option ℚ := none
  realized_funding : Option ℚ := none
  funding_rate : Option ℚ := none
  trade_price : ℚ := 0
  execution : Option String := none

/-- Milliseconds per day. -/
def msPerDay : Int := 24 * 60 * 60 * 1000

/-- UTC calendar day of an epoch-millisecond timestamp (`datetime.date()`
of the parsed UTC datetime; floor division matches Python semantics). -/
def dayOfMs (ts : Int) : Int := Int.fdiv ts msPerDay

/-- Milliseconds in the 365-day cap window (`365 * 24 * 60 * 60 * 1000`). -/
def oneYearMs : Int := 365 * msPerDay

/-- Window capping of `get_position_accumulated_data`
(`kraken_client.py` lines 501-507; identical logic at
`routes/positions.py` lines 126-133): returns `(fetch_from_ts, data_is_capped)`. -/
def capWindow (trueOpenedTs currentTs : Int) : Int × Bool :=
  let oneYearAgo := currentTs - oneYearMs
  if trueOpenedTs < oneYearAgo then (oneYearAgo, true) else (trueOpenedTs, false)

/-- Log type tag for funding entries.  `routes/positions.py` imports
`ENTRY_TYPE_FUNDING_RATE_CHANGE` from `kraken_client`, whose definition is
not among the sources under `src/`.  Modelled from the spec: the spec's
`funding_change` log type is the one written `'funding rate change'` by
`unified_data_service.py` line 120 and `dashboard_utils.py` line 166, so the
constant carries that literal. -/
def ENTRY_TYPE_FUNDING_RATE_CHANGE : String := "funding rate change"

/-- Accumulation loop of `get_position_accumulated_data_cached`
(`routes/positions.py` lines 140-157).  Returns
`(accumulated_funding, accumulated_fees)` before the final rounding.
`symbol` is the already upper-cased position symbol, as in the caller. -/
def cachedAccumulate (symbol : String) (logs : List LogEntry) : ℚ × ℚ :=
  logs.foldl (fun acc log =>
    if log.contract ≠ "" ∧ strIn symbol (strUpper log.contract) then
      if log.info = ENTRY_TYPE_FUNDING_RATE_CHANGE then
        match log.realized_funding with
        | some rf => (acc.1 + rf, acc.2)
        | none => acc
      else if log.info = "futures trade" then
        match log.fee with
        | some fee => (acc.1, acc.2 + |fee|)
        | none => acc
      else acc
    else acc) (0, 0)

/-- Funding accumulation loop of `get_position_accumulated_data`
(`kraken_client.py` lines 522-533).  A failed date parse (`date = none`)
falls into the `except ... pass` branch and the entry is still considered;
a parsed date before `true_opened_ts` is skipped by the `continue`.
Note the source adds `abs(float(log.get('realized_funding', 0)))`. -/
def clientAccumulatedFunding (symbol : String) (trueOpenedTs : Int)
    (logs : List LogEntry) : ℚ :=
  logs.foldl (fun acc log =>
    if log.funding_rate.isSome ∧ log.realized_funding.isSome then
      if (match log.date with
          | some ts => decide (ts < trueOpenedTs)
          | none => false) = true then acc
      else if strIn symbol (strUpper log.contract) then
        acc + |log.realized_funding.getD 0|
      else acc
    else acc) 0

/-- A position as read from the exchange (`symbol` and `size` are the only
fields the accumulation code reads). -/
structure Position where
  symbol : String := ""
  size : ℚ := 0

/-- Result record of the accumulated-data computation.
`true_opened_ts` stands for the `true_opened_date_utc` field (which is that
timestamp rendered as an ISO string). -/
structure AccResult where
  accumulated_funding : ℚ := 0
  accumulated_fees : ℚ := 0
  data_is_capped : Bool := false
  true_opened_ts : Option Int := none
  error : Option String := none

/-- Embedding of `get_position_accumulated_data_cached`
(`routes/positions.py` lines 105-166).  The network-dependent collaborators
are passed as oracles: `resolveOpenTime` stands for
`find_true_position_open_time` and `rawLogs` for
`unified_data_service.get_raw_logs` (applied to the fetch window the code
passes).  The guard mirrors `if not symbol or position_size == 0`. -/
def getPositionAccumulatedDataCached
    (resolveOpenTime : String → ℚ → Int → Int)
    (rawLogs : Int → Int → List LogEntry)
    (currentTs : Int) (position : Position) : AccResult :=
  let symbol := strUpper position.symbol
  let positionSize := |position.size|
  if symbol = "" ∨ positionSize = 0 then
    { accumulated_funding := 0, accumulated_fees := 0, data_is_capped := false,
      error := some "Missing symbol or size" }
  else
    let trueOpenedTs := resolveOpenTime symbol positionSize currentTs
    let fc := capWindow trueOpenedTs currentTs
    let allLogs := rawLogs fc.1 currentTs
    let acc := cachedAccumulate symbol allLogs
    { accumulated_funding := round2 acc.1, accumulated_fees := round2 acc.2,
      data_is_capped := fc.2, true_opened_ts := some trueOpenedTs }

/-- Embedding of `calculate_unrealized_pnl` (`routes/positions.py` lines
26-59; the copy in `dashboard_utils.py` lines 185-218 is identical).
`if not current_price or current_price <= 0` collapses to `currentPrice ≤ 0`
on rationals since `not x` is only true at `0.0`. -/
def calculateUnrealizedPnl (size avgPrice currentPrice : ℚ) : ℚ :=
  if currentPrice ≤ 0 then 0
  else if size = 0 then 0
  else if avgPrice ≤ 0 then 0
  else if 0 < size then round2 ((currentPrice - avgPrice) * |size|)
  else round2 ((avgPrice - currentPrice) * |size|)

/-- Output record of `format_position_data`; the pass-through string fields
(`symbol`, prices, dates) that no claim reads are elided. -/
structure FormattedPosition where
  size : ℚ
  unrealizedPnl : ℚ
  accumulatedFunding : ℚ
  accumulatedFees : ℚ
  closingFees : ℚ
  netUnrealizedPnl : ℚ
  dataIsCapped : Bool
  side : String

/-- Embedding of `format_position_data` (`routes/positions.py` lines 62-102). -/
def formatPositionData (size avgPrice currentPrice : ℚ)
    (accumulatedData : AccResult) (makerFee : ℚ) : FormattedPosition :=
  let unrealizedPnl := calculateUnrealizedPnl size avgPrice currentPrice
  let accumulatedFunding := accumulatedData.accumulated_funding
  let accumulatedFees := accumulatedData.accumulated_fees
  let closingFees := round2 (|size| * currentPrice * makerFee)
  let netPnl :=
    if accumulatedFunding < 0 then
      round2 (unrealizedPnl - |accumulatedFunding| - accumulatedFees - closingFees)
    else
      round2 (unrealizedPnl + accumulatedFunding - accumulatedFees - closingFees)
  { size := size
    unrealizedPnl := round2 unrealizedPnl
    accumulatedFunding := round2 accumulatedFunding
    accumulatedFees := round2 accumulatedFees
    closingFees := closingFees
    netUnrealizedPnl := netPnl
    dataIsCapped := accumulatedData.data_is_capped
    side := if 0 < size then "long" else "short" }

/-- Per-day accumulator of `aggregate_logs_by_day`.  The per-day trade
detail aggregation the source builds alongside (`dashboard_utils.py` lines
143-164 and 172-181) is independent per-day state that never feeds back
into `fees` or `funding` and is read by no claim, so it is elided here. -/
structure DashDay where
  fees : ℚ := 0
  funding : ℚ := 0
deriving DecidableEq

/-- One iteration of the `aggregate_logs_by_day` loop (`dashboard_utils.py`
lines 118-170): an unparseable date is skipped, a trade entry adds its
absolute fee to the entry's day, a funding entry adds the sign-inverted
realized funding (`-funding_val if funding_val > 0 else abs(funding_val)`). -/
def dashStep (daily : Int → DashDay) (entry : LogEntry) : Int → DashDay :=
  match entry.date with
  | none => daily
  | some ts =>
    let dayKey := dayOfMs ts
    if entry.info = "futures trade" then
      let fee := |entry.fee.getD 0|
      fun d => if d = dayKey then { daily d with fees := (daily d).fees + fee }
               else daily d
    else if entry.info = "funding rate change" then
      let fundingVal := entry.realized_funding.getD 0
      let funding := if 0 < fundingVal then -fundingVal else |fundingVal|
      fun d => if d = dayKey then { daily d with funding := (daily d).funding + funding }
               else daily d
    else daily

/-- Embedding of `aggregate_logs_by_day` (`dashboard_utils.py` lines
102-182) restricted to the `fees` and `funding` accumulators.  The result
maps a UTC day to its bucket; days never touched hold the zero bucket,
which is exactly what the dict-with-insert-on-first-touch produces for the
days a caller can observe. -/
def aggregateLogsByDay (logs : List LogEntry) : Int → DashDay :=
  logs.foldl dashStep (fun _ => {})

/-- Daily accumulator bucket of `_fetch_and_process_data`
(`unified_data_service.py` lines 110-115). -/
structure Bucket where
  fees : ℚ := 0
  funding : ℚ := 0
  volume : ℚ := 0
  trade_count : ℕ := 0
deriving DecidableEq

/-- Execution payload the service reads out of the execution map
(`quantity` and `usdValue`, lines 152-153). -/
structure ExecData where
  quantity : ℚ := 0
  usdValue : ℚ := 0
deriving DecidableEq

/-- One element of the execution-events response; `uid` may be missing. -/
structure ExecEvent where
  uid : Option String := none
  data : ExecData := {}

/-- Building of `exec_map` (`unified_data_service.py` lines 86-91): a dict
from execution uid to its data, later insertions overwriting earlier ones;
events with a falsy uid are skipped. -/
def buildExecMap (events : List ExecEvent) : String → Option ExecData :=
  events.foldl (fun m e =>
    match e.uid with
    | some id => if id = "" then m else fun k => if k = id then some e.data else m k
    | none => m) (fun _ => none)

/-- A row of `trades_list` (`unified_data_service.py` lines 170-179);
`ts` is the entry's epoch-millisecond timestamp. -/
structure TradeRow where
  ts : Int
  contract : String
  fee : ℚ
  trade_price : ℚ
  quantity : Option ℚ
  usd_volume : ℚ
  execution_id : Option String
deriving DecidableEq

/-- Mutable state of the log-processing loop: the `daily_data` dict (as a
total function with the zero bucket as the insert-on-first-touch default),
the `processed_executions` set, and `trades_list`. -/
structure ProcState where
  daily : Int → Bucket
  processed : List String
  trades : List TradeRow

/-- Point update of the daily dict at one day key. -/
def updateDay (daily : Int → Bucket) (d : Int) (f : Bucket → Bucket) :
    Int → Bucket :=
  fun k => if k = d then f (daily k) else daily k

/-- Truthiness of the `execution` field (Python: `None` and `""` are falsy). -/
def truthyId : Option String → Bool
  | some s => s ≠ ""
  | none => false

/-- Python `not exec_id or exec_id not in exec_map` (line 156). -/
def execIdNotInMap (execMap : String → Option ExecData) :
    Option String → Bool
  | some id => if id = "" then true else (execMap id).isNone
  | none => true

/-- One iteration of the log loop of `_fetch_and_process_data`
(`unified_data_service.py` lines 100-183).  Entries with a missing or
unparseable date are skipped (`continue`); funding entries add
`abs(realized_funding)` to the day's funding; trade entries add fees and
the trade count only when the fee is non-zero, attribute volume from the
execution map at most once per truthy execution id, and otherwise fall back
to the fee-based estimate `fee / 0.0001`. -/
def processLog (execMap : String → Option ExecData) (st : ProcState)
    (log : LogEntry) : ProcState :=
  match log.date with
  | none => st
  | some ts =>
    let dayKey := dayOfMs ts
    if log.info = "funding rate change" then
      match log.realized_funding with
      | some rf =>
        { st with daily := (updateDay st.daily dayKey
            (fun b => { b with funding := b.funding + |rf| })) }
      | none => st
    else if log.info = "futures trade" then
      match log.fee with
      | none => st
      | some feeRaw =>
        let feeAmount := |feeRaw|
        let daily1 :=
          if 0 < feeAmount then
            updateDay st.daily dayKey
              (fun b => { b with fees := b.fees + feeAmount,
                                 trade_count := b.trade_count + 1 })
          else st.daily
        let tradePrice := log.trade_price
        let execId := log.execution
        let fresh : Bool :=
          match execId with
          | some id => decide (id ≠ "") && !(decide (id ∈ st.processed))
          | none => false
        let processed2 :=
          if fresh then (match execId with | some id => id :: st.processed | none => st.processed)
          else st.processed
        let fromMap : Option ExecData :=
          if fresh then (match execId with | some id => execMap id | none => none)
          else none
        let quantity0 : Option ℚ :=
          match fromMap with | some ed => some |ed.quantity| | none => none
        let usdVolume0 : ℚ :=
          match fromMap with | some ed => ed.usdValue | none => 0
        let estimate :=
          usdVolume0 = 0 ∧ tradePrice ≠ 0 ∧ 0 < feeAmount ∧
            execIdNotInMap execMap execId = true
        let usdVolume := if estimate then feeAmount / (1/10000) else usdVolume0
        let quantity :=
          if estimate then
            (if tradePrice ≠ 0 then some (feeAmount / (1/10000) / tradePrice) else none)
          else quantity0
        let daily2 :=
          if 0 < usdVolume then
            updateDay daily1 dayKey (fun b => { b with volume := b.volume + usdVolume })
          else daily1
        { daily := daily2, processed := processed2,
          trades := st.trades ++
            [{ ts := ts, contract := log.contract, fee := feeAmount,
               trade_price := tradePrice, quantity := quantity,
               usd_volume := usdVolume, execution_id := execId }] }
    else st

/-- The whole log loop, started from the empty dict / set / list. -/
def processLogs (execMap : String → Option ExecData) (logs : List LogEntry) :
    ProcState :=
  logs.foldl (processLog execMap) ⟨fun _ => {}, [], []⟩

/-- One element of the output `daily_data` series
(`unified_data_service.py` lines 201-207); `date` is the UTC day. -/
structure DayOut where
  date : Int
  fees : ℚ
  funding : ℚ
  volume : ℚ
  trade_count : ℕ
deriving DecidableEq

/-- Generation of the complete daily series (`unified_data_service.py`
lines 185-207): one bucket per day from `today - (days-1)` to `today`,
defaulting to the zero bucket, each money field rounded to 2 decimals. -/
def mkDailySeries (dailyMap : Int → Bucket) (days : ℕ) (today : Int) :
    List DayOut :=
  let startDate : Int := today - ((days : Int) - 1)
  (List.range days).map (fun (i : ℕ) =>
    let data := dailyMap (startDate + (i : Int))
    { date := startDate + i, fees := round2 data.fees,
      funding := round2 data.funding, volume := round2 data.volume,
      trade_count := data.trade_count })

/-- The `summary` record (`unified_data_service.py` lines 221-229). -/
structure Summary where
  total_fees : ℚ
  total_funding : ℚ
  total_volume : ℚ
  total_trades : ℕ
  total_cost : ℚ
  avg_daily_fees : ℚ
  avg_daily_funding : ℚ
deriving DecidableEq

/-- Summary computation over a daily series (`unified_data_service.py`
lines 212-229; `_filter_to_days` lines 243-259 repeat it verbatim). -/
def summarize (series : List DayOut) (days : ℕ) : Summary :=
  let totalFees := (series.map (fun d => d.fees)).sum
  let totalFunding := (series.map (fun d => d.funding)).sum
  let totalVolume := (series.map (fun d => d.volume)).sum
  let totalTrades := (series.map (fun d => d.trade_count)).sum
  { total_fees := round2 totalFees, total_funding := round2 totalFunding,
    total_volume := round2 totalVolume, total_trades := totalTrades,
    total_cost := round2 (totalFees + totalFunding),
    avg_daily_fees := round2 (if 0 < days then totalFees / days else 0),
    avg_daily_funding := round2 (if 0 < days then totalFunding / days else 0) }

/-- Stable ascending insertion by timestamp, modelling
`trades_list.sort(key=lambda x: x['timestamp'])`. -/
def insertAscTs (x : TradeRow) : List TradeRow → List TradeRow
  | [] => [x]
  | y :: ys => if x.ts ≤ y.ts then x :: y :: ys else y :: insertAscTs x ys

/-- Stable sort of the trades list by timestamp. -/
def sortTradesAsc (l : List TradeRow) : List TradeRow := l.foldr insertAscTs []

/-- The record returned by `_fetch_and_process_data` (lines 218-232);
`last_updated` is elided (a wall-clock read no claim mentions). -/
structure ProcessedData where
  daily_data : List DayOut
  trades : List TradeRow
  summary : Summary
  period_days : ℕ

/-- Embedding of `UnifiedDataService._fetch_and_process_data`
(`unified_data_service.py` lines 66-232) with the two network fetches
replaced by their results: `logs` (account logs) and `events` (execution
events), and `today` the current UTC day. -/
def fetchAndProcessData (logs : List LogEntry) (events : List ExecEvent)
    (days : ℕ) (today : Int) : ProcessedData :=
  let execMap := buildExecMap events
  let st := processLogs execMap logs
  let series := mkDailySeries st.daily days today
  { daily_data := series, trades := sortTradesAsc st.trades,
    summary := summarize series days, period_days := days }

/-- Python `l[-n:]` for `n` a non-negative int (`daily_data[-days:]`,
line 240): the last `n` elements, the whole list when `n = 0` or
`n ≥ length`. -/
def lastN (l : List DayOut) (n : ℕ) : List DayOut :=
  if n = 0 then l else l.drop (l.length - n)

/-- Embedding of `UnifiedDataService._filter_to_days`
(`unified_data_service.py` lines 234-262). -/
def filterToDays (fullData : ProcessedData) (days : ℕ) : ProcessedData :=
  if fullData.period_days = days then fullData
  else
    let filtered := lastN fullData.daily_data days
    { daily_data := filtered, trades := fullData.trades,
      summary := summarize filtered days, period_days := days }

/-- An execution event as consumed by `find_true_position_open_time`.
The fields are the ones lines 427-447 of `kraken_client.py` extract from
either the nested `event.execution` wrapper or the flat shape: timestamp
(epoch ms), tradeable symbol, unsigned quantity, and order direction. -/
structure ExecutionRecord where
  timestamp : Int
  symbol : String := ""
  quantity : ℚ := 0
  direction : String := ""

/-- Symbol match and sign adjustment (`kraken_client.py` lines 449-453):
keeps executions whose upper-cased symbol equals the upper-cased position
symbol with non-zero quantity, negating the quantity of sells; returns the
`(timestamp, signed_quantity)` pair the source appends. -/
def matchedSigned (positionSymbol : String) (e : ExecutionRecord) :
    Option (Int × ℚ) :=
  if strUpper e.symbol = strUpper positionSymbol ∧ e.quantity ≠ 0 then
    some (e.timestamp, if strLower e.direction = "sell" then -e.quantity else e.quantity)
  else none

/-- Modelled from the spec: `get_execution_events(since, before)` is a
network fetch (its pagination lives in `kraken_client.py` but the range
semantics is the exchange's); the spec treats it as
`GET paginated_logs(since, before)` returning the records of the half-open
window `[since, before)`, which also keeps consecutive 30-day chunks
disjoint as the resolver's chunking assumes. -/
def chunkEvents (history : List ExecutionRecord) (startTs endTs : Int) :
    List ExecutionRecord :=
  history.filter (fun e => startTs ≤ e.timestamp ∧ e.timestamp < endTs)

/-- The `symbol_executions` extraction of one chunk (lines 427-453). -/
def symbolExecutions (positionSymbol : String)
    (chunk : List ExecutionRecord) : List (Int × ℚ) :=
  chunk.filterMap (matchedSigned positionSymbol)

/-- Stable descending insertion by timestamp, matching
`sort(key=lambda x: x[0], reverse=True)` (Python's stable sort keeps the
original order of equal keys even with `reverse=True`). -/
def insertDesc (x : Int × ℚ) : List (Int × ℚ) → List (Int × ℚ)
  | [] => [x]
  | y :: ys => if y.1 ≤ x.1 then x :: y :: ys else y :: insertDesc x ys

/-- Stable descending sort by timestamp. -/
def sortDesc (l : List (Int × ℚ)) : List (Int × ℚ) := l.foldr insertDesc []

/-- The epsilon of the zero-crossing test, `0.0001` (line 467). -/
def netEps : ℚ := 1/10000

/-- The inner walk (lines 461-469): subtract each signed quantity from the
running net position; answer the timestamp of the first execution after
which `|net_position| < 0.0001`. -/
def walkNet (net : ℚ) : List (Int × ℚ) → Option Int
  | [] => none
  | (ts, q) :: rest =>
    let net2 := net - q
    if |net2| < netEps then some ts else walkNet net2 rest

/-- Sum of the signed quantities of a pair list. -/
def sumQ (l : List (Int × ℚ)) : ℚ := (l.map (fun x => x.2)).sum

/-- Minimum timestamp of a pair list
(`min(exec[0] for exec in all_executions)`, line 475). -/
def minTs : List (Int × ℚ) → Option Int
  | [] => none
  | (ts, _) :: rest =>
    some (match minTs rest with | none => ts | some m => min ts m)

/-- `CHUNK_DAYS * 24 * 60 * 60 * 1000` (line 415). -/
def chunkMs : Int := 30 * msPerDay

/-- `MAX_LOOKBACK_DAYS // CHUNK_DAYS` chunks are searched (line 414). -/
def chunkCount : ℕ := 730 / 30

/-- The chunked search loop of `find_true_position_open_time`
(`kraken_client.py` lines 412-471): per chunk, fetch and extract the
symbol's executions, sort them newest-first, then continue the running
walk; the net position and the collected execution list persist across
chunks.  Returns the crossing timestamp (if any) and `all_executions`. -/
def findOpenTimeLoop (history : List ExecutionRecord) (sym : String) :
    ℕ → Int → ℚ → List (Int × ℚ) → Option Int × List (Int × ℚ)
  | 0, _, _, acc => (none, acc)
  | n + 1, endTs, net, acc =>
    let startTs := endTs - chunkMs
    let symExecs := sortDesc (symbolExecutions sym (chunkEvents history startTs endTs))
    match walkNet net symExecs with
    | some ts => (some ts, acc ++ symExecs)
    | none => findOpenTimeLoop history sym n startTs (net - sumQ symExecs) (acc ++ symExecs)

/-- Embedding of `find_true_position_open_time` (`kraken_client.py` lines
397-482): chunked backward search for the zero crossing, falling back to
the oldest matched execution, and to `now - 30 days` when none matched. -/
def findTruePositionOpenTime (history : List ExecutionRecord)
    (positionSymbol : String) (positionSize : ℚ) (currentTs : Int) : Int :=
  match findOpenTimeLoop history positionSymbol chunkCount currentTs positionSize [] with
  | (some ts, _) => ts
  | (none, allExecs) =>
    match minTs allExecs with
    | some t => t
    | none => currentTs - 30 * msPerDay

/-- The resolver behaviour exactly as the claim states it: walk the
symbol's executions of the lookback window most-recent-first, subtracting
each signed quantity from a running net position initialised to the current
size, and return the timestamp of the first trade at which the net
position's absolute value falls below `1e-4`; with no such crossing, the
timestamp of the oldest matched execution; with no matched executions at
all, `now` minus 30 days. -/
def findOpenTimeSpec (history : List ExecutionRecord)
    (positionSymbol : String) (positionSize : ℚ) (currentTs : Int) : Int :=
  let window := chunkEvents history (currentTs - (chunkCount : Int) * chunkMs) currentTs
  let matched := sortDesc (symbolExecutions positionSymbol window)
  match walkNet positionSize matched with
  | some ts => ts
  | none =>
    match minTs matched with
    | some t => t
    | none => currentTs - 30 * msPerDay

/-- `MAX_RETRIES` (`kraken_client.py` line 23). -/
def MAX_RETRIES : ℕ := 3

/-- `INITIAL_RETRY_DELAY` in seconds (`kraken_client.py` line 24). -/
def INITIAL_RETRY_DELAY : ℕ := 10

/-- Outcome of one transport attempt, as `make_request` distinguishes
them: a decoded JSON success, an `HTTPError` with status code and body, or
any other exception with its message. -/
inductive TransportOutcome where
  | ok (value : String)
  | httpError (code : ℕ) (body : String)
  | failed (message : String)

/-- The rate-limit test of line 139:
`e.code == 429 or "rate limit" in error_body.lower()`. -/
def isRateLimitError (code : ℕ) (body : String) : Bool :=
  code == 429 || strIn "rate limit" (strLower body)

/-- The `HTTP Error {code}` message recorded in `last_error` (line 146),
with the reason phrase elided. -/
def httpErrMsg (code : ℕ) (body : String) : String :=
  "HTTP Error " ++ toString code ++ ": " ++ body

/-- The `KrakenAPIError` message raised on exhaustion (line 159). -/
def exhaustedMsg (lastError : Option String) : String :=
  "Request failed after " ++ toString MAX_RETRIES ++ " attempts: " ++
    lastError.getD "None"

/-- Observable trace of `make_request`: its result, the number of transport
attempts performed, and the successive `time.sleep(retry_delay)` durations. -/
structure RequestTrace where
  result : Except String String
  attempts : ℕ
  delays : List ℕ

/-- The retry loop of `make_request` (`kraken_client.py` lines 101-159).
`attempt` is the loop index, `fuel` the remaining iterations
(`MAX_RETRIES - attempt`), `retryDelay` the current backoff.  A rate-limit
error on a non-final attempt sleeps and `continue`s; any other failure
records `last_error` and sleeps before the next attempt; the final attempt
never sleeps and the loop ends by raising `KrakenAPIError`. -/
def makeRequestGo (transport : ℕ → TransportOutcome) :
    ℕ → ℕ → ℕ → List ℕ → Option String → RequestTrace
  | attempt, 0, _, delays, lastError =>
    ⟨.error (exhaustedMsg lastError), attempt, delays⟩
  | attempt, fuel + 1, retryDelay, delays, lastError =>
    match transport attempt with
    | .ok v => ⟨.ok v, attempt + 1, delays⟩
    | .httpError code body =>
      let msg := httpErrMsg code body
      if isRateLimitError code body then
        if 0 < fuel then
          makeRequestGo transport (attempt + 1) fuel (2 * retryDelay)
            (delays ++ [retryDelay]) lastError
        else ⟨.error (exhaustedMsg (some msg)), attempt + 1, delays⟩
      else if 0 < fuel then
        makeRequestGo transport (attempt + 1) fuel (2 * retryDelay)
          (delays ++ [retryDelay]) (some msg)
      else ⟨.error (exhaustedMsg (some msg)), attempt + 1, delays⟩
    | .failed m =>
      if 0 < fuel then
        makeRequestGo transport (attempt + 1) fuel (2 * retryDelay)
          (delays ++ [retryDelay]) (some m)
      else ⟨.error (exhaustedMsg (some m)), attempt + 1, delays⟩

/-- Embedding of `make_request`'s retry behaviour, with the transport
abstracted as the outcome of each attempt. -/
def makeRequest (transport : ℕ → TransportOutcome) : RequestTrace :=
  makeRequestGo transport 0 MAX_RETRIES INITIAL_RETRY_DELAY [] none

/-- A transport that answers HTTP 429 to every attempt. -/
def transport429 : ℕ → TransportOutcome := fun _ => .httpError 429 ""

/-- Specification-side vocabulary: whether a log entry is a
funding-rate-change entry whose (parsed) date falls on UTC day `d`. -/
def isFundingOn (d : Int) (e : LogEntry) : Bool :=
  (match e.date with
   | some ts => decide (dayOfMs ts = d)
   | none => false) && (e.info == "funding rate change")

/-- Specification-side vocabulary: the funding-rate-change entries of a
given UTC day, the population whose `realized_funding` the dashboard
aggregator's per-day funding is claimed to negate. -/
def fundingEntriesOn (d : Int) (logs : List LogEntry) : List LogEntry :=
  logs.filter (isFundingOn d)

/-- A funding log entry whose realized funding is a net cost of 5 to the
holder (negative sign), used to exhibit the sign divergence of
`get_position_accumulated_data`. -/
def fundingLogNeg : LogEntry :=
  { date := some 0, info := "funding rate change", contract := "PF_XBTUSD",
    realized_funding := some (-5), funding_rate := some 1 }

/-- The invariant claimed of every result of the unified data service: the
summary totals equal the sums of the corresponding fields over the daily
series returned alongside them. -/
def SummaryMatches (p : ProcessedData) : Prop :=
  p.summary.total_fees = (p.daily_data.map (fun d => d.fees)).sum ∧
  p.summary.total_funding = (p.daily_data.map (fun d => d.funding)).sum ∧
  p.summary.total_volume = (p.daily_data.map (fun d => d.volume)).sum ∧
  p.summary.total_trades = (p.daily_data.map (fun d => d.trade_count)).sum

/-- A fee-bearing trade log row with execution id `"X"`; used to exhibit
the behaviour of the volume dedup rule. -/
def tradeRowX : LogEntry :=
  { date := some 0, info := "futures trade", fee := some 1,
    trade_price := 100, execution := some "X" }

/-- An execution event carrying uid `"X"`, so that `"X"` is in the
execution map. -/
def execEventX : ExecEvent := { uid := some "X", data := { quantity := 2, usdValue := 150 } }

/-- Specification-side vocabulary: a `(timestamp, quantity)` pair whose
timestamp lies in the half-open window `[s, e)`. -/
def pairInRange (s e : Int) (x : Int × ℚ) : Bool := decide (s ≤ x.1 ∧ x.1 < e)

theorem roundHalfEven_intCast (n : ℤ) : roundHalfEven (n : ℚ) = n := by
  simp only [roundHalfEven, Int.floor_intCast]
  norm_num

theorem Cent_round2 (q : ℚ) : Cent (round2 q) := ⟨roundHalfEven (q * 100), rfl⟩

theorem round2_cent {q : ℚ} (h : Cent q) : round2 q = q := by
  obtain ⟨n, rfl⟩ := h
  unfold round2
  have h100 : (n : ℚ) / 100 * 100 = (n : ℚ) := by field_simp
  rw [h100, roundHalfEven_intCast]

theorem Cent_zero : Cent 0 := ⟨0, by norm_num⟩

theorem round2_zero : round2 0 = 0 := round2_cent Cent_zero

theorem Cent_add {a b : ℚ} (ha : Cent a) (hb : Cent b) : Cent (a + b) := by
  obtain ⟨m, rfl⟩ := ha
  obtain ⟨n, rfl⟩ := hb
  exact ⟨m + n, by push_cast; ring⟩

theorem Cent_neg {a : ℚ} (ha : Cent a) : Cent (-a) := by
  obtain ⟨m, rfl⟩ := ha
  exact ⟨-m, by push_cast; ring⟩

theorem Cent_sub {a b : ℚ} (ha : Cent a) (hb : Cent b) : Cent (a - b) := by
  rw [sub_eq_add_neg]
  exact Cent_add ha (Cent_neg hb)

theorem Cent_sum {l : List ℚ} (h : ∀ x ∈ l, Cent x) : Cent l.sum := by
  induction l with
  | nil => simpa using Cent_zero
  | cons x xs ih =>
    rw [List.sum_cons]
    exact Cent_add (h x (by simp)) (ih (fun y hy => h y (by simp [hy])))

/-- C3: a position whose resolved true open time is more than 365 days
before now gets a fetch window starting exactly at now minus 365 days and
`data_is_capped = true`; one opened within the last 365 days gets the
window starting exactly at the resolved open time and
`data_is_capped = false`.  The third conjunct ties the flag returned by
`get_position_accumulated_data_cached` to this window computation. -/
theorem C3_capped_window (t now : Int) :
    (t < now - oneYearMs → capWindow t now = (now - oneYearMs, true)) ∧
    (now - oneYearMs ≤ t → capWindow t now = (t, false)) ∧
    (∀ (resolveOpenTime : String → ℚ → Int → Int)
       (rawLogs : Int → Int → List LogEntry) (pos : Position),
      strUpper pos.symbol ≠ "" → (|pos.size| : ℚ) ≠ 0 →
      (getPositionAccumulatedDataCached resolveOpenTime rawLogs now pos).data_is_capped
        = (capWindow (resolveOpenTime (strUpper pos.symbol) |pos.size| now) now).2) := by
  refine ⟨?_, ?_, ?_⟩
  · intro h
    simp [capWindow, h]
  · intro h
    simp [capWindow, not_lt.mpr h]
  · intro res raw pos h1 h2
    simp [getPositionAccumulatedDataCached, h1, h2]

theorem C3_capped_window_witness :
    capWindow 0 (oneYearMs + 1) = (1, true) ∧ capWindow 0 oneYearMs = (0, false) := by
  constructor
  · have h := (C3_capped_window 0 (oneYearMs + 1)).1 (by norm_num [oneYearMs, msPerDay])
    rw [h]
    norm_num
  · have h := (C3_capped_window 0 oneYearMs).2.1 (by norm_num)
    simpa using h

/-- C8: for a position with an empty symbol or zero size the
accumulated-data computation returns, for every resolver and log source
(so in particular without consulting the resolver), the zeroed result with
the explicit error string — it never throws. -/
theorem C8_insufficient_data (pos : Position)
    (h : pos.symbol = "" ∨ pos.size = 0) :
    ∀ (resolveOpenTime : String → ℚ → Int → Int)
      (rawLogs : Int → Int → List LogEntry) (currentTs : Int),
      getPositionAccumulatedDataCached resolveOpenTime rawLogs currentTs pos
        = { accumulated_funding := 0, accumulated_fees := 0,
            data_is_capped := false, true_opened_ts := none,
            error := some "Missing symbol or size" } := by
  intro res raw ts
  have hg : strUpper pos.symbol = "" ∨ (|pos.size| : ℚ) = 0 := by
    rcases h with h | h
    · left; rw [h]; rfl
    · right; rw [h]; simp
  simp only [getPositionAccumulatedDataCached]
  rw [if_pos hg]

theorem C8_insufficient_data_witness :
    getPositionAccumulatedDataCached (fun _ _ _ => 0) (fun _ _ => []) 0 ⟨"", 5⟩
      = { accumulated_funding := 0, accumulated_fees := 0,
          data_is_capped := false, true_opened_ts := none,
          error := some "Missing symbol or size" } :=
  C8_insufficient_data ⟨"", 5⟩ (Or.inl rfl) _ _ 0

/-- C2: the funding accumulation of `get_position_accumulated_data`
(`kraken_client.py` line 533) adds `abs(realized_funding)` and therefore
turns the net-cost entry `realized_funding = -5` into `+5`, while the
cached accumulation actually used by the positions route
(`routes/positions.py` line 152) preserves the sign and yields `-5`:
evaluation of both embeddings at the failing input. -/
theorem C2_funding_sign_divergence :
    clientAccumulatedFunding "PF_XBTUSD" 0 [fundingLogNeg] = 5 ∧
    cachedAccumulate "PF_XBTUSD" [fundingLogNeg] = (-5, 0) := by
  constructor
  · show (0 : ℚ) + |(-5 : ℚ)| = 5
    norm_num
  · show ((0 : ℚ) + (-5 : ℚ), (0 : ℚ)) = (-5, 0)
    norm_num

theorem makeRequestGo_rateLimited_step (transport : ℕ → TransportOutcome)
    (a fuel d : ℕ) (ds : List ℕ) (le : Option String) (c : ℕ) (b : String)
    (he : transport a = .httpError c b) (hr : isRateLimitError c b = true)
    (hf : 0 < fuel) :
    makeRequestGo transport a (fuel + 1) d ds le
      = makeRequestGo transport (a + 1) fuel (2 * d) (ds ++ [d]) le := by
  rw [makeRequestGo, he]
  simp [hr, hf]

theorem makeRequestGo_rateLimited_last (transport : ℕ → TransportOutcome)
    (a d : ℕ) (ds : List ℕ) (le : Option String) (c : ℕ) (b : String)
    (he : transport a = .httpError c b) (hr : isRateLimitError c b = true) :
    makeRequestGo transport a 1 d ds le
      = ⟨.error (exhaustedMsg (some (httpErrMsg c b))), a + 1, ds⟩ := by
  rw [show (1 : ℕ) = 0 + 1 from rfl, makeRequestGo, he]
  simp [hr]

theorem makeRequestGo_attempts_le (transport : ℕ → TransportOutcome) :
    ∀ (fuel a d : ℕ) (ds : List ℕ) (le : Option String),
      (makeRequestGo transport a fuel d ds le).attempts ≤ a + fuel := by
  intro fuel
  induction fuel with
  | zero =>
    intro a d ds le
    simp [makeRequestGo]
  | succ n ih =>
    intro a d ds le
    rw [makeRequestGo]
    cases h : transport a with
    | ok v => simp
    | httpError c b =>
      by_cases hr : isRateLimitError c b = true
      · by_cases hf : 0 < n
        · simp only [hr, if_true, hf]
          calc (makeRequestGo transport (a+1) n (2*d) (ds ++ [d]) le).attempts
              ≤ (a+1) + n := ih (a+1) (2*d) (ds ++ [d]) le
            _ = a + (n+1) := by omega
        · have hn : n = 0 := by omega
          subst hn
          simp [hr]
      · have hr' : isRateLimitError c b = false := by
          simpa using hr
        by_cases hf : 0 < n
        · simp only [hr', Bool.false_eq_true, if_false, hf, if_true]
          calc (makeRequestGo transport (a+1) n (2*d) (ds ++ [d]) (some (httpErrMsg c b))).attempts
              ≤ (a+1) + n := ih (a+1) (2*d) (ds ++ [d]) _
            _ = a + (n+1) := by omega
        · have hn : n = 0 := by omega
          subst hn
          simp [hr']
    | failed m =>
      by_cases hf : 0 < n
      · simp only [hf, if_true]
        calc (makeRequestGo transport (a+1) n (2*d) (ds ++ [d]) (some m)).attempts
            ≤ (a+1) + n := ih (a+1) (2*d) (ds ++ [d]) _
          _ = a + (n+1) := by omega
      · have hn : n = 0 := by omega
        subst hn
        simp

/-- C7 (amended): three consecutive rate-limited transport outcomes make
`make_request` perform exactly three attempts — the initial attempt plus
two retries — with the two backoff sleeps strictly increasing (10 then 20
seconds, the second double the first), before raising the rate-limited
`KrakenAPIError`; and no transport whatsoever is ever attempted more than
`MAX_RETRIES = 3` times. -/
theorem C7_retry_behaviour (transport : ℕ → TransportOutcome)
    (h : ∀ i, i < MAX_RETRIES → ∃ code body,
        transport i = .httpError code body ∧ isRateLimitError code body = true) :
    (makeRequest transport).attempts = 3 ∧
    (makeRequest transport).delays = [INITIAL_RETRY_DELAY, 2 * INITIAL_RETRY_DELAY] ∧
    List.Chain' (fun a b => a < b) (makeRequest transport).delays ∧
    (∃ msg, (makeRequest transport).result = Except.error msg) ∧
    (∀ t, (makeRequest t).attempts ≤ MAX_RETRIES) := by
  obtain ⟨c0, b0, e0, r0⟩ := h 0 (by norm_num [MAX_RETRIES])
  obtain ⟨c1, b1, e1, r1⟩ := h 1 (by norm_num [MAX_RETRIES])
  obtain ⟨c2, b2, e2, r2⟩ := h 2 (by norm_num [MAX_RETRIES])
  have hrun : makeRequest transport
      = ⟨.error (exhaustedMsg (some (httpErrMsg c2 b2))), 3, [10, 20]⟩ := by
    unfold makeRequest
    rw [show MAX_RETRIES = 2 + 1 from rfl,
        makeRequestGo_rateLimited_step transport 0 2 _ _ _ c0 b0 e0 r0 (by norm_num),
        show (2 : ℕ) = 1 + 1 from rfl,
        makeRequestGo_rateLimited_step transport 1 1 _ _ _ c1 b1 e1 r1 (by norm_num),
        makeRequestGo_rateLimited_last transport 2 _ _ _ c2 b2 e2 r2]
    rfl
  refine ⟨by rw [hrun], by rw [hrun]; rfl,
    by rw [hrun]; show List.Chain' (fun a b => a < b) [10, 20];
       simp [List.chain'_cons, List.chain'_singleton],
    ⟨exhaustedMsg (some (httpErrMsg c2 b2)), by rw [hrun]⟩, ?_⟩
  intro t
  have := makeRequestGo_attempts_le t MAX_RETRIES 0 INITIAL_RETRY_DELAY [] none
  simpa [makeRequest] using this

theorem C7_retry_behaviour_witness :
    (makeRequest transport429).attempts = 3 ∧
    (makeRequest transport429).delays = [10, 20] := by
  have h := C7_retry_behaviour transport429
    (fun i _ => ⟨429, "", rfl, by decide⟩)
  exact ⟨h.1, by rw [h.2.1]; rfl⟩

/-- C7 counterexample to the claim as stated: with three consecutive HTTP
429 responses the loop sleeps only twice (delays 10 and 20 seconds) before
raising, so there are not three retries each with its own delay — the third
rate-limited attempt is the final one and is followed by no backoff. -/
theorem C7_three_retries_cex :
    (makeRequest transport429).delays.length = 2 ∧
    ¬ (makeRequest transport429).delays.length = 3 := by
  constructor
  · decide
  · decide

theorem Cent_calculateUnrealizedPnl (size avgPrice currentPrice : ℚ) :
    Cent (calculateUnrealizedPnl size avgPrice currentPrice) := by
  unfold calculateUnrealizedPnl
  repeat' split
  all_goals first
  | exact Cent_zero
  | exact Cent_round2 _

/-- C5: net P&L treats accumulated funding as a signed addend — a funding
accumulation of `-12.50` yields exactly `u - 12.50 - f - c` and one of
`+12.50` exactly `u + 12.50 - f - c`, where `u` is the unrealized P&L, `f`
the accumulated fees and `c` the estimated closing fee; in general the net
P&L adds the funding when non-negative and subtracts its absolute value
when negative, then subtracts fees and the closing fee (rounded at the
output boundary). -/
theorem C5_net_pnl_funding_sign (size avgPrice currentPrice f makerFee : ℚ)
    (capped : Bool) (ots : Option Int) (err : Option String) (hf : Cent f) :
    ((formatPositionData size avgPrice currentPrice
        { accumulated_funding := -(25/2), accumulated_fees := f,
          data_is_capped := capped, true_opened_ts := ots, error := err }
        makerFee).netUnrealizedPnl
      = calculateUnrealizedPnl size avgPrice currentPrice - 25/2 - f
          - round2 (|size| * currentPrice * makerFee)) ∧
    ((formatPositionData size avgPrice currentPrice
        { accumulated_funding := 25/2, accumulated_fees := f,
          data_is_capped := capped, true_opened_ts := ots, error := err }
        makerFee).netUnrealizedPnl
      = calculateUnrealizedPnl size avgPrice currentPrice + 25/2 - f
          - round2 (|size| * currentPrice * makerFee)) ∧
    (∀ af : ℚ, (formatPositionData size avgPrice currentPrice
        { accumulated_funding := af, accumulated_fees := f,
          data_is_capped := capped, true_opened_ts := ots, error := err }
        makerFee).netUnrealizedPnl
      = round2 (calculateUnrealizedPnl size avgPrice currentPrice
          + (if af < 0 then -|af| else af) - f
          - round2 (|size| * currentPrice * makerFee))) := by
  set u := calculateUnrealizedPnl size avgPrice currentPrice with hu_def
  set c := round2 (|size| * currentPrice * makerFee) with hc_def
  have hgen : ∀ af : ℚ, (formatPositionData size avgPrice currentPrice
      { accumulated_funding := af, accumulated_fees := f,
        data_is_capped := capped, true_opened_ts := ots, error := err }
      makerFee).netUnrealizedPnl
      = round2 (u + (if af < 0 then -|af| else af) - f - c) := by
    intro af
    show (if af < 0 then round2 (u - |af| - f - c) else round2 (u + af - f - c))
      = round2 (u + (if af < 0 then -|af| else af) - f - c)
    by_cases h : af < 0
    · rw [if_pos h, if_pos h]
      congr 1
      ring
    · rw [if_neg h, if_neg h]
  have hu : Cent u := Cent_calculateUnrealizedPnl size avgPrice currentPrice
  have hc : Cent c := Cent_round2 _
  have h125 : Cent ((25 : ℚ)/2) := ⟨1250, by norm_num⟩
  refine ⟨?_, ?_, hgen⟩
  · rw [hgen]
    have hif : (if -(25/2 : ℚ) < 0 then -|(-(25/2 : ℚ))| else -(25/2 : ℚ))
        = -(25/2 : ℚ) := by
      rw [if_pos (by norm_num)]
      norm_num
    rw [hif]
    have heq : u + -(25/2 : ℚ) - f - c = u - 25/2 - f - c := by ring
    rw [heq]
    exact round2_cent (Cent_sub (Cent_sub (Cent_sub hu h125) hf) hc)
  · rw [hgen]
    have hif : (if (25/2 : ℚ) < 0 then -|(25/2 : ℚ)| else (25/2 : ℚ)) = (25/2 : ℚ) := by
      rw [if_neg (by norm_num)]
    rw [hif]
    exact round2_cent (Cent_sub (Cent_sub (Cent_add hu h125) hf) hc)

theorem C5_net_pnl_funding_sign_witness :
    (formatPositionData 10 100 110
        { accumulated_funding := -(25/2), accumulated_fees := 3,
          data_is_capped := false, true_opened_ts := none, error := none }
        0).netUnrealizedPnl
      = calculateUnrealizedPnl 10 100 110 - 25/2 - 3 - round2 (|(10 : ℚ)| * 110 * 0) :=
  (C5_net_pnl_funding_sign 10 100 110 3 0 false none none ⟨300, by norm_num⟩).1

theorem dashStep_funding (init : Int → DashDay) (e : LogEntry) (d : Int) :
    (dashStep init e d).funding
      = (init d).funding
        + (if isFundingOn d e = true then -(e.realized_funding.getD 0) else 0) := by
  unfold dashStep isFundingOn
  cases he : e.date with
  | none => simp
  | some ts =>
    by_cases ht : e.info = "futures trade"
    · have hne : (e.info == "funding rate change") = false := by
        simp [ht]
      simp only [ht, if_true, hne, Bool.and_false, Bool.false_eq_true, if_false, add_zero]
      by_cases hd : d = dayOfMs ts
      · simp [hd]
      · simp [hd]
    · by_cases hfu : e.info = "funding rate change"
      · have hbe : (e.info == "funding rate change") = true := by
          simp [hfu]
        by_cases hd : d = dayOfMs ts
        · have hdec : decide (dayOfMs ts = d) = true := by
            simp [hd]
          simp only [ht, if_false, hfu, if_true, hbe, hdec, Bool.true_and, hd, if_pos rfl]
          have habs : (if 0 < e.realized_funding.getD 0 then -(e.realized_funding.getD 0)
              else |e.realized_funding.getD 0|) = -(e.realized_funding.getD 0) := by
            by_cases hpos : 0 < e.realized_funding.getD 0
            · rw [if_pos hpos]
            · rw [if_neg hpos, abs_of_nonpos (not_lt.mp hpos)]
          simp [habs]
        · have hdec : decide (dayOfMs ts = d) = false := by
            simp; exact fun hcontra => hd hcontra.symm
          simp [ht, hfu, hdec, hd]
      · have hne : (e.info == "funding rate change") = false := by
          simp [hfu]
        simp [ht, hfu, hne]

theorem aggregateFold_funding (logs : List LogEntry) :
    ∀ (init : Int → DashDay) (d : Int),
      ((logs.foldl dashStep init) d).funding
        = (init d).funding
          - ((fundingEntriesOn d logs).map (fun e => e.realized_funding.getD 0)).sum := by
  induction logs with
  | nil =>
    intro init d
    simp [fundingEntriesOn]
  | cons e rest ih =>
    intro init d
    rw [List.foldl_cons, ih (dashStep init e) d, dashStep_funding]
    unfold fundingEntriesOn
    rw [List.filter_cons]
    by_cases hp : isFundingOn d e = true
    · rw [if_pos (by simp [hp])]
      simp only [List.map_cons, List.sum_cons, hp, if_true]
      ring
    · rw [if_neg (by simpa using hp)]
      simp [hp]

/-- C9: for every list of log entries and every day, the per-day funding
the dashboard aggregator reports equals the negation of the sum of
`realized_funding` over that day's funding-rate-change entries (positive
raw values contribute their negative, negative raw values their absolute
value). -/
theorem C9_dashboard_funding_negated (logs : List LogEntry) (d : Int) :
    (aggregateLogsByDay logs d).funding
      = -(((fundingEntriesOn d logs).map (fun e => e.realized_funding.getD 0)).sum) := by
  unfold aggregateLogsByDay
  rw [aggregateFold_funding]
  simp [DashDay.funding]

theorem processLog_daily_untouched (m : String → Option ExecData)
    (st : ProcState) (log : LogEntry) (d : Int)
    (h : ∀ ts, log.date = some ts → dayOfMs ts ≠ d) :
    (processLog m st log).daily d = st.daily d := by
  unfold processLog
  cases hd : log.date with
  | none => rfl
  | some ts =>
    have hne : ¬ (d = dayOfMs ts) := fun hh => h ts hd hh.symm
    by_cases h1 : log.info = "funding rate change"
    · simp only [h1, if_true]
      cases log.realized_funding with
      | some rf => simp [updateDay, hne]
      | none => rfl
    · simp only [h1, if_false]
      by_cases h2 : log.info = "futures trade"
      · simp only [h2, if_true]
        cases hfee : log.fee with
        | none => rfl
        | some feeRaw =>
          simp only [updateDay]
          repeat' split
          all_goals simp [updateDay, hne]
      · simp [h1, h2]

theorem foldl_daily_untouched (m : String → Option ExecData)
    (logs : List LogEntry) :
    ∀ (st : ProcState) (d : Int),
      (∀ log ∈ logs, ∀ ts, log.date = some ts → dayOfMs ts ≠ d) →
      (logs.foldl (processLog m) st).daily d = st.daily d := by
  induction logs with
  | nil =>
    intro st d _
    rfl
  | cons x xs ih =>
    intro st d h
    rw [List.foldl_cons, ih _ d (fun l hl => h l (List.mem_cons_of_mem _ hl)),
        processLog_daily_untouched m st x d (h x (List.mem_cons_self _ _))]

/-- C1: over a requested window of `days` days the unified service's daily
series has exactly `days` buckets, their dates are the consecutive UTC
calendar days ending today (no gaps), and a day touched by no log entry
carries fees, funding and volume `0.0` and `trade_count` `0`. -/
theorem C1_daily_series_complete (logs : List LogEntry) (events : List ExecEvent)
    (days : ℕ) (today : Int) :
    (fetchAndProcessData logs events days today).daily_data.length = days ∧
    ((fetchAndProcessData logs events days today).daily_data.map (fun b => b.date)
      = (List.range days).map (fun (i : ℕ) => today - ((days : Int) - 1) + (i : Int))) ∧
    (∀ i : ℕ, i < days →
      (∀ log ∈ logs, ∀ ts, log.date = some ts
        → dayOfMs ts ≠ today - ((days : Int) - 1) + i) →
      (fetchAndProcessData logs events days today).daily_data[i]?
        = some { date := today - ((days : Int) - 1) + i, fees := 0, funding := 0,
                 volume := 0, trade_count := 0 }) := by
  refine ⟨?_, ?_, ?_⟩
  · simp only [fetchAndProcessData, mkDailySeries, List.length_map,
      List.length_range]
  · simp [fetchAndProcessData, mkDailySeries, List.map_map]
  · intro i hi h
    have hbucket : (processLogs (buildExecMap events) logs).daily
        (today - ((days : Int) - 1) + i) = {} :=
      foldl_daily_untouched (buildExecMap events) logs _ _ h
    simp only [fetchAndProcessData, mkDailySeries]
    rw [List.getElem?_map, List.getElem?_range hi]
    simp only [Option.map_some']
    rw [hbucket]
    simp [round2_zero]

theorem C1_daily_series_complete_witness :
    (fetchAndProcessData [] [] 2 0).daily_data[0]?
      = some { date := -1, fees := 0, funding := 0, volume := 0, trade_count := 0 } := by
  have h := (C1_daily_series_complete [] [] 2 0).2.2 0 (by norm_num) (by simp)
  simpa using h

theorem mkDailySeries_cent (dailyMap : Int → Bucket) (days : ℕ) (today : Int) :
    ∀ x ∈ mkDailySeries dailyMap days today,
      Cent x.fees ∧ Cent x.funding ∧ Cent x.volume := by
  intro x hx
  simp only [mkDailySeries, List.mem_map] at hx
  obtain ⟨i, _, rfl⟩ := hx
  exact ⟨Cent_round2 _, Cent_round2 _, Cent_round2 _⟩

theorem summarize_matches (series : List DayOut) (days : ℕ)
    (h : ∀ x ∈ series, Cent x.fees ∧ Cent x.funding ∧ Cent x.volume) :
    (summarize series days).total_fees = (series.map (fun d => d.fees)).sum ∧
    (summarize series days).total_funding = (series.map (fun d => d.funding)).sum ∧
    (summarize series days).total_volume = (series.map (fun d => d.volume)).sum ∧
    (summarize series days).total_trades = (series.map (fun d => d.trade_count)).sum := by
  refine ⟨?_, ?_, ?_, rfl⟩
  · exact round2_cent (Cent_sum (fun x hx => by
      obtain ⟨y, hy, rfl⟩ := List.mem_map.mp hx
      exact (h y hy).1))
  · exact round2_cent (Cent_sum (fun x hx => by
      obtain ⟨y, hy, rfl⟩ := List.mem_map.mp hx
      exact (h y hy).2.1))
  · exact round2_cent (Cent_sum (fun x hx => by
      obtain ⟨y, hy, rfl⟩ := List.mem_map.mp hx
      exact (h y hy).2.2))

/-- C10: both a freshly computed result of the unified data service and one
filtered from cache to a smaller day window satisfy the invariant that the
summary totals (fees, funding, volume, trades) equal the sums of the
corresponding fields over the daily series returned alongside them —
exactly, which in particular is within the 2-decimal output rounding. -/
theorem C10_summary_sums (logs : List LogEntry) (events : List ExecEvent)
    (days : ℕ) (today : Int) (days2 : ℕ) :
    SummaryMatches (fetchAndProcessData logs events days today) ∧
    SummaryMatches (filterToDays (fetchAndProcessData logs events days today) days2) := by
  have hseries := mkDailySeries_cent (processLogs (buildExecMap events) logs).daily days today
  have h1 : SummaryMatches (fetchAndProcessData logs events days today) :=
    summarize_matches _ _ hseries
  refine ⟨h1, ?_⟩
  unfold filterToDays
  by_cases hp : (fetchAndProcessData logs events days today).period_days = days2
  · rw [if_pos hp]
    exact h1
  · rw [if_neg hp]
    apply summarize_matches
    intro x hx
    have hsub : x ∈ mkDailySeries (processLogs (buildExecMap events) logs).daily days today := by
      unfold lastN at hx
      by_cases h0 : days2 = 0
      · rw [if_pos h0] at hx
        exact hx
      · rw [if_neg h0] at hx
        exact List.drop_subset _ _ hx
    exact hseries x hsub

theorem processLog_date_none (m : String → Option ExecData) (st : ProcState)
    (r : LogEntry) (h : r.date = none) : processLog m st r = st := by
  unfold processLog
  rw [h]

theorem processLog_trade_fee_none (m : String → Option ExecData) (st : ProcState)
    (r : LogEntry) (ts : Int) (hinfo : r.info = "futures trade")
    (hd : r.date = some ts) (h : r.fee = none) : processLog m st r = st := by
  simp [processLog, hd, hinfo, h]

theorem processLog_processed_mem (m : String → Option ExecData) (st : ProcState)
    (r : LogEntry) (id : String) (ts : Int) (f : ℚ)
    (hinfo : r.info = "futures trade") (hid : r.execution = some id) (hne : id ≠ "")
    (hd : r.date = some ts) (hf : r.fee = some f) :
    id ∈ (processLog m st r).processed := by
  by_cases hmem : id ∈ st.processed
  · simp [processLog, hd, hinfo, hf, hid, hmem]
  · simp [processLog, hd, hinfo, hf, hid, hne, hmem]

theorem processLog_volume_second (m : String → Option ExecData) (st : ProcState)
    (r : LogEntry) (id : String)
    (hinfo : r.info = "futures trade") (hid : r.execution = some id)
    (hne : id ≠ "") (hmem : id ∈ st.processed)
    (hblock : (m id).isSome ∨ r.fee = some 0)
    (d : Int) :
    ((processLog m st r).daily d).volume = (st.daily d).volume := by
  cases hd : r.date with
  | none => rw [processLog_date_none m st r hd]
  | some ts =>
    cases hfee : r.fee with
    | none => rw [processLog_trade_fee_none m st r ts hinfo hd hfee]
    | some feeRaw =>
      rcases hblock with hmap | hzero
      · have hnone : (m id).isNone = false := by
          cases hmm : m id with
          | none => rw [hmm] at hmap; simp at hmap
          | some v => rfl
        by_cases hdk : d = dayOfMs ts
        · simp only [processLog, hd, hinfo, hfee, hid]
          simp [hmem, hnone, hdk, execIdNotInMap, hne,
            apply_ite (fun g : Int → Bucket => (g (dayOfMs ts)).volume)]
          intro _
          simp [updateDay]
        · simp [processLog, hd, hinfo, hfee, hid, hmem, hnone, updateDay, hdk,
            execIdNotInMap, hne, apply_ite (fun g : Int → Bucket => (g d).volume)]
      · have hf0 : feeRaw = 0 := by
          rw [hfee] at hzero
          simpa using hzero
        subst hf0
        simp [processLog, hd, hinfo, hfee, hid, hmem, hne]

theorem processLog_volume_zero_fee_untruthy (m : String → Option ExecData)
    (st : ProcState) (r : LogEntry)
    (hinfo : r.info = "futures trade")
    (hid : r.execution = none ∨ r.execution = some "")
    (hfee : r.fee = some 0) (d : Int) :
    ((processLog m st r).daily d).volume = (st.daily d).volume := by
  cases hd : r.date with
  | none => rw [processLog_date_none m st r hd]
  | some ts =>
    rcases hid with hid | hid
    · simp [processLog, hd, hinfo, hfee, hid]
    · simp [processLog, hd, hinfo, hfee, hid]

/-- C6 (amended): a trade log row seen twice with the same execution id
contributes its volume only once — the totals from feeding the row twice
and once agree — when that execution id is present in the execution map
(the dedup set guards the map-based attribution, and the fee-based
estimate is skipped for ids the map knows), and likewise whenever the
duplicate carries no positive fee (fee absent or zero, as the real
zero-fee companion rows are), since the estimate only fires on
fee-bearing rows. -/
theorem C6_volume_dedup (r : LogEntry) (events : List ExecEvent) (days : ℕ)
    (today : Int)
    (hinfo : r.info = "futures trade")
    (h : (∃ id, r.execution = some id ∧ id ≠ "" ∧ (buildExecMap events id).isSome)
      ∨ r.fee = none ∨ r.fee = some 0) :
    (fetchAndProcessData [r, r] events days today).summary.total_volume
      = (fetchAndProcessData [r] events days today).summary.total_volume := by
  have key : ∀ d, ((processLogs (buildExecMap events) [r, r]).daily d).volume
      = ((processLogs (buildExecMap events) [r]).daily d).volume := by
    intro d
    show ((processLog (buildExecMap events)
        (processLog (buildExecMap events) ⟨fun _ => {}, [], []⟩ r) r).daily d).volume
      = ((processLog (buildExecMap events) ⟨fun _ => {}, [], []⟩ r).daily d).volume
    cases hd : r.date with
    | none =>
      rw [processLog_date_none (buildExecMap events) ⟨fun _ => {}, [], []⟩ r hd,
          processLog_date_none (buildExecMap events) ⟨fun _ => {}, [], []⟩ r hd]
    | some ts =>
      cases hfee : r.fee with
      | none =>
        rw [processLog_trade_fee_none (buildExecMap events) ⟨fun _ => {}, [], []⟩ r ts hinfo hd hfee,
            processLog_trade_fee_none (buildExecMap events) ⟨fun _ => {}, [], []⟩ r ts hinfo hd hfee]
      | some f =>
        rcases h with ⟨id, hid, hne, hmap⟩ | hfn | hf0
        · exact processLog_volume_second (buildExecMap events) _ r id hinfo hid hne
            (processLog_processed_mem (buildExecMap events) _ r id ts f hinfo hid hne hd hfee)
            (Or.inl hmap) d
        · rw [hfn] at hfee
          simp at hfee
        · cases hex : r.execution with
          | none =>
            exact processLog_volume_zero_fee_untruthy (buildExecMap events) _ r hinfo
              (Or.inl hex) hf0 d
          | some id =>
            by_cases hne : id = ""
            · subst hne
              exact processLog_volume_zero_fee_untruthy (buildExecMap events) _ r hinfo
                (Or.inr hex) hf0 d
            · exact processLog_volume_second (buildExecMap events) _ r id hinfo hex hne
                (processLog_processed_mem (buildExecMap events) _ r id ts f hinfo hex hne hd hfee)
                (Or.inr hf0) d
  have hmapeq : (mkDailySeries (processLogs (buildExecMap events) [r, r]).daily days today).map
        (fun b => b.volume)
      = (mkDailySeries (processLogs (buildExecMap events) [r]).daily days today).map
        (fun b => b.volume) := by
    simp only [mkDailySeries, List.map_map]
    apply List.map_congr_left
    intro i _
    simp only [Function.comp]
    exact congrArg round2 (key _)
  show round2 ((mkDailySeries (processLogs (buildExecMap events) [r, r]).daily days today).map
      (fun b => b.volume)).sum
    = round2 ((mkDailySeries (processLogs (buildExecMap events) [r]).daily days today).map
      (fun b => b.volume)).sum
  rw [hmapeq]

theorem C6_volume_dedup_witness :
    (fetchAndProcessData [tradeRowX, tradeRowX] [execEventX] 1 0).summary.total_volume
      = (fetchAndProcessData [tradeRowX] [execEventX] 1 0).summary.total_volume :=
  C6_volume_dedup tradeRowX [execEventX] 1 0 rfl
    (Or.inl ⟨"X", rfl, by decide, by decide⟩)

theorem C6_volume_dedup_cex :
    (fetchAndProcessData [tradeRowX, tradeRowX] [] 1 0).summary.total_volume
      ≠ (fetchAndProcessData [tradeRowX] [] 1 0).summary.total_volume := by
  simp only [fetchAndProcessData, processLogs, List.foldl, processLog, tradeRowX,
    buildExecMap, mkDailySeries, summarize, updateDay, execIdNotInMap, dayOfMs, msPerDay,
    show List.range 1 = [0] from rfl, List.map_cons, List.map_nil, Function.comp,
    List.sum_cons, List.sum_nil]
  norm_num
  simp [updateDay]
  norm_num [round2, roundHalfEven, updateDay]

theorem sortDesc_cons (x : Int × ℚ) (l : List (Int × ℚ)) :
    sortDesc (x :: l) = insertDesc x (sortDesc l) := rfl

theorem mem_insertDesc {y x : Int × ℚ} :
    ∀ {l : List (Int × ℚ)}, y ∈ insertDesc x l → y = x ∨ y ∈ l := by
  intro l
  induction l with
  | nil =>
    intro h
    simp [insertDesc] at h
    exact Or.inl h
  | cons z zs ih =>
    simp only [insertDesc]
    by_cases h : z.1 ≤ x.1
    · rw [if_pos h]
      intro hy
      simpa using List.mem_cons.mp hy
    · rw [if_neg h]
      intro hy
      rcases List.mem_cons.mp hy with h1 | h1
      · exact Or.inr (by simp [h1])
      · rcases ih h1 with h2 | h2
        · exact Or.inl h2
        · exact Or.inr (by simp [h2])

theorem mem_sortDesc {y : Int × ℚ} :
    ∀ {l : List (Int × ℚ)}, y ∈ sortDesc l → y ∈ l := by
  intro l
  induction l with
  | nil => simp [sortDesc]
  | cons z zs ih =>
    rw [sortDesc_cons]
    intro h
    rcases mem_insertDesc h with h1 | h1
    · simp [h1]
    · simp [ih h1]

theorem insertDesc_append_high (x : Int × ℚ) (b : List (Int × ℚ))
    (hb : ∀ y ∈ b, y.1 ≤ x.1) :
    ∀ a : List (Int × ℚ), insertDesc x (a ++ b) = insertDesc x a ++ b := by
  intro a
  induction a with
  | nil =>
    cases hbc : b with
    | nil => rfl
    | cons y ys =>
      show insertDesc x (y :: ys) = [x] ++ (y :: ys)
      simp only [insertDesc]
      rw [if_pos (hb y (by simp [hbc]))]
      rfl
  | cons z a' ih =>
    show insertDesc x (z :: (a' ++ b)) = insertDesc x (z :: a') ++ b
    simp only [insertDesc]
    by_cases h : z.1 ≤ x.1
    · rw [if_pos h, if_pos h]
      rfl
    · rw [if_neg h, if_neg h]
      simp [ih]

theorem insertDesc_append_low (x : Int × ℚ) (b : List (Int × ℚ)) :
    ∀ a : List (Int × ℚ), (∀ y ∈ a, x.1 < y.1) →
      insertDesc x (a ++ b) = a ++ insertDesc x b := by
  intro a
  induction a with
  | nil =>
    intro _
    rfl
  | cons z a' ih =>
    intro ha
    have hz : x.1 < z.1 := ha z (List.mem_cons_self _ _)
    show insertDesc x (z :: (a' ++ b)) = z :: (a' ++ insertDesc x b)
    simp only [insertDesc]
    rw [if_neg (not_le.mpr hz), ih (fun y hy => ha y (List.mem_cons_of_mem _ hy))]

theorem mem_filter_range {y : Int × ℚ} {l : List (Int × ℚ)} {s e : Int}
    (h : y ∈ l.filter (pairInRange s e)) : s ≤ y.1 ∧ y.1 < e := by
  have := (List.mem_filter.mp h).2
  simpa [pairInRange] using this

theorem sortDesc_split (s t e : Int) (hst : s ≤ t) (hte : t ≤ e) :
    ∀ l : List (Int × ℚ),
      sortDesc (l.filter (pairInRange t e)) ++ sortDesc (l.filter (pairInRange s t))
        = sortDesc (l.filter (pairInRange s e)) := by
  intro l
  induction l with
  | nil => simp [sortDesc]
  | cons x xs ih =>
    rw [List.filter_cons, List.filter_cons, List.filter_cons]
    by_cases h1 : t ≤ x.1 ∧ x.1 < e
    · have hp1 : pairInRange t e x = true := by simp [pairInRange]; omega
      have hp2 : pairInRange s t x = false := by simp [pairInRange]; omega
      have hp3 : pairInRange s e x = true := by simp [pairInRange]; omega
      rw [hp1, hp2, hp3]
      simp only [if_true, Bool.false_eq_true, if_false]
      rw [sortDesc_cons, sortDesc_cons, ← ih]
      have hb : ∀ y ∈ sortDesc (xs.filter (pairInRange s t)), y.1 ≤ x.1 := by
        intro y hy
        have hm := mem_filter_range (mem_sortDesc hy)
        omega
      rw [insertDesc_append_high x _ hb (sortDesc (xs.filter (pairInRange t e)))]
    · by_cases h2 : s ≤ x.1 ∧ x.1 < t
      · have hp1 : pairInRange t e x = false := by simp [pairInRange]; omega
        have hp2 : pairInRange s t x = true := by simp [pairInRange]; omega
        have hp3 : pairInRange s e x = true := by simp [pairInRange]; omega
        rw [hp1, hp2, hp3]
        simp only [if_true, Bool.false_eq_true, if_false]
        rw [sortDesc_cons, sortDesc_cons, ← ih]
        have ha : ∀ y ∈ sortDesc (xs.filter (pairInRange t e)), x.1 < y.1 := by
          intro y hy
          have hm := mem_filter_range (mem_sortDesc hy)
          omega
        rw [insertDesc_append_low x _ _ ha]
      · have hp1 : pairInRange t e x = false := by simp [pairInRange]; omega
        have hp2 : pairInRange s t x = false := by simp [pairInRange]; omega
        have hp3 : pairInRange s e x = false := by simp [pairInRange]; omega
        rw [hp1, hp2, hp3]
        simp only [Bool.false_eq_true, if_false]
        exact ih

theorem matchedSigned_ts {sym : String} {x : ExecutionRecord} {p : Int × ℚ}
    (h : matchedSigned sym x = some p) : p.1 = x.timestamp := by
  unfold matchedSigned at h
  by_cases hc : strUpper x.symbol = strUpper sym ∧ x.quantity ≠ 0
  · rw [if_pos hc] at h
    cases h
    rfl
  · rw [if_neg hc] at h
    cases h

theorem symbolExecutions_chunk (sym : String) (history : List ExecutionRecord)
    (s e : Int) :
    symbolExecutions sym (chunkEvents history s e)
      = (symbolExecutions sym history).filter (pairInRange s e) := by
  induction history with
  | nil => rfl
  | cons x xs ih =>
    unfold symbolExecutions chunkEvents at ih ⊢
    rw [List.filter_cons, List.filterMap_cons]
    by_cases hr : s ≤ x.timestamp ∧ x.timestamp < e
    · rw [if_pos (by simpa using hr)]
      rw [List.filterMap_cons]
      cases hm : matchedSigned sym x with
      | none => exact ih
      | some p =>
        rw [List.filter_cons]
        have hp : pairInRange s e p = true := by
          have := matchedSigned_ts hm
          simp [pairInRange, this]
          omega
        rw [hp, if_pos rfl]
        rw [ih]
    · rw [if_neg (by simpa using hr)]
      cases hm : matchedSigned sym x with
      | none => exact ih
      | some p =>
        rw [List.filter_cons]
        have hp : pairInRange s e p = false := by
          have := matchedSigned_ts hm
          simp [pairInRange, this]
          omega
        rw [hp]
        simp only [Bool.false_eq_true, if_false]
        exact ih

theorem walkNet_append (b : List (Int × ℚ)) :
    ∀ (a : List (Int × ℚ)) (net : ℚ),
      walkNet net (a ++ b)
        = (match walkNet net a with
           | some ts => some ts
           | none => walkNet (net - sumQ a) b) := by
  intro a
  induction a with
  | nil =>
    intro net
    simp [walkNet, sumQ]
  | cons p a' ih =>
    intro net
    obtain ⟨ts, q⟩ := p
    show walkNet net ((ts, q) :: (a' ++ b)) = _
    simp only [walkNet]
    by_cases h : |net - q| < netEps
    · simp only [if_pos h]
    · simp only [if_neg h, ih (net - q)]
      have hs : net - q - sumQ a' = net - sumQ ((ts, q) :: a') := by
        simp [sumQ]
        ring
      rw [hs]

theorem findOpenTimeLoop_spec (history : List ExecutionRecord) (sym : String) :
    ∀ (n : ℕ) (endTs : Int) (net : ℚ) (acc : List (Int × ℚ)),
      (findOpenTimeLoop history sym n endTs net acc).1
        = walkNet net (sortDesc ((symbolExecutions sym history).filter
            (pairInRange (endTs - (n : Int) * chunkMs) endTs))) ∧
      ((findOpenTimeLoop history sym n endTs net acc).1 = none →
        (findOpenTimeLoop history sym n endTs net acc).2
          = acc ++ sortDesc ((symbolExecutions sym history).filter
              (pairInRange (endTs - (n : Int) * chunkMs) endTs))) := by
  intro n
  induction n with
  | zero =>
    intro endTs net acc
    have hnil : (symbolExecutions sym history).filter
        (pairInRange (endTs - ((0 : ℕ) : Int) * chunkMs) endTs) = [] := by
      rw [List.filter_eq_nil_iff]
      intro a _
      simp [pairInRange]
    rw [hnil]
    refine ⟨rfl, fun _ => ?_⟩
    show acc = acc ++ sortDesc []
    simp [sortDesc]
  | succ k ih =>
    intro endTs net acc
    have hchunk0 : (0 : Int) ≤ (k : Int) * chunkMs :=
      mul_nonneg (Int.natCast_nonneg k) (by norm_num [chunkMs, msPerDay])
    have harith : endTs - ((k + 1 : ℕ) : Int) * chunkMs
        = (endTs - chunkMs) - (k : Int) * chunkMs := by
      push_cast
      ring
    have hsplit : sortDesc ((symbolExecutions sym history).filter
          (pairInRange (endTs - ((k + 1 : ℕ) : Int) * chunkMs) endTs))
        = sortDesc ((symbolExecutions sym history).filter
            (pairInRange (endTs - chunkMs) endTs))
          ++ sortDesc ((symbolExecutions sym history).filter
            (pairInRange ((endTs - chunkMs) - (k : Int) * chunkMs) (endTs - chunkMs))) := by
      rw [harith]
      rw [sortDesc_split ((endTs - chunkMs) - (k : Int) * chunkMs) (endTs - chunkMs) endTs
        (by omega) (by norm_num [chunkMs, msPerDay])]
    rw [hsplit, walkNet_append]
    simp only [findOpenTimeLoop, symbolExecutions_chunk]
    cases hw : walkNet net (sortDesc ((symbolExecutions sym history).filter
        (pairInRange (endTs - chunkMs) endTs))) with
    | some ts =>
      exact ⟨rfl, fun hcon => by simp at hcon⟩
    | none =>
      obtain ⟨ih1, ih2⟩ := ih (endTs - chunkMs)
        (net - sumQ (sortDesc ((symbolExecutions sym history).filter
          (pairInRange (endTs - chunkMs) endTs))))
        (acc ++ sortDesc ((symbolExecutions sym history).filter
          (pairInRange (endTs - chunkMs) endTs)))
      refine ⟨ih1, fun hnone => ?_⟩
      rw [ih2 hnone, List.append_assoc]

/-- C4: the chunked backward search of `find_true_position_open_time` is
extensionally the specified algorithm — walk the symbol's executions of the
lookback window most-recent-first, subtracting each signed quantity (sells
negated) from a running net position initialised to the current size, and
return the timestamp of the first trade at which `|net_position| < 1e-4`;
with no crossing, the timestamp of the oldest matched execution; with no
matched executions, now minus 30 days.  Chunking the window into 30-day
slices sorted per slice changes nothing, because the slices partition the
window in descending time order and the per-slice stable sorts concatenate
to the stable sort of the whole window. -/
theorem C4_resolver_matches_spec (history : List ExecutionRecord)
    (positionSymbol : String) (positionSize : ℚ) (currentTs : Int) :
    findTruePositionOpenTime history positionSymbol positionSize currentTs
      = findOpenTimeSpec history positionSymbol positionSize currentTs := by
  obtain ⟨h1, h2⟩ := findOpenTimeLoop_spec history positionSymbol chunkCount
    currentTs positionSize []
  unfold findTruePositionOpenTime
  simp only [findOpenTimeSpec]
  rw [symbolExecutions_chunk]
  cases hres : findOpenTimeLoop history positionSymbol chunkCount currentTs
      positionSize [] with
  | mk cross allExecs =>
    rw [hres] at h1 h2
    simp only at h1 h2
    cases cross with
    | some ts =>
      rw [← h1]
    | none =>
      rw [← h1, h2 rfl]
      simp

end KrakenDash
